import Mathlib

/-!
Shallow embedding of the custom-diagnostic subsystem of
`src/librustc/traits/on_unimplemented.rs`: the `#[rustc_on_unimplemented]`
directive parser, condition evaluator, directive resolver and the
format-template validator/renderer.

External collaborators that are not part of the file under `src/`
(the attribute AST helpers from `syntax::ast`, the condition walker
`attr::eval_condition_with_custom_list_handler`, the `fmt_macros` format-string
tokenizer and the trait-selection oracle) are modelled from the spec, as noted
on each definition.
-/

namespace OnUnimpl

/-- Interned strings and symbol names (`syntax_pos::symbol`, `ast::Name`) are
modelled as `String`. -/
abbrev Name := String

/-- Source spans (`syntax_pos::Span`) are modelled as opaque numeric ids; the
embedding only ever compares them and attaches them to diagnostics. -/
abbrev Span := Nat

/-- Definition identities (`hir::def_id::DefId`) are modelled as opaque ids. -/
abbrev DefId := Nat

/-- Types (`ty::Ty`) are modelled by their printed form, which is the only
aspect of a type this subsystem observes (via `to_string`). -/
abbrev Ty := String

/-- Literal kinds: the code only distinguishes string literals
(`LitKind::Str`) from everything else. -/
inductive LitKind where
  | str (s : Name)
  | other
  deriving DecidableEq, Repr

/-- An `ast::Lit`: only its `node` field is observed by this subsystem. -/
structure Lit where
  node : LitKind
  deriving DecidableEq, Repr

/-- Nested attribute meta items (`ast::NestedMetaItem`), flattened: the first
three constructors are the meta-item kinds (`Word`, `List`, `NameValue`) of an
`ast::MetaItem` together with its name and span, and `literal` is the
`NestedMetaItemKind::Literal` case. -/
inductive NestedMetaItem where
  | word (name : Name) (span : Span)
  | list (name : Name) (items : List NestedMetaItem) (span : Span)
  | nameValue (name : Name) (lit : Lit) (span : Span)
  | litItem (lit : Lit) (span : Span)
  deriving Repr

instance instDecEqExcept {e a : Type} [DecidableEq e] [DecidableEq a] :
    DecidableEq (Except e a) := fun x y =>
  match x, y with
  | .ok u, .ok v => decidable_of_iff (u = v) (by simp)
  | .error u, .error v => decidable_of_iff (u = v) (by simp)
  | .ok _, .error _ => isFalse (by simp)
  | .error _, .ok _ => isFalse (by simp)

/-- The span of a nested meta item. -/
def NestedMetaItem.span : NestedMetaItem → Span
  | .word _ sp => sp
  | .list _ _ sp => sp
  | .nameValue _ _ sp => sp
  | .litItem _ sp => sp

/-- `NestedMetaItem::literal`: the literal of a `Literal`-kind nested item. -/
def NestedMetaItem.literal : NestedMetaItem → Option Lit
  | .litItem lit _ => some lit
  | _ => none

/-- `NestedMetaItem::meta_item`: the item itself when it is a meta item. -/
def NestedMetaItem.meta_item : NestedMetaItem → Option NestedMetaItem
  | .litItem _ _ => none
  | mi => some mi

/-- `MetaItem::name`: the name of a meta item (unused for literals, which the
code never queries for a name). -/
def NestedMetaItem.metaName : NestedMetaItem → Name
  | .word n _ => n
  | .list n _ _ => n
  | .nameValue n _ _ => n
  | .litItem _ _ => ""

/-- `NestedMetaItem::check_name`: whether this is a meta item with the given
name. -/
def NestedMetaItem.check_name (n : NestedMetaItem) (name : Name) : Bool :=
  match n with
  | .word nm _ => nm == name
  | .list nm _ _ => nm == name
  | .nameValue nm _ _ => nm == name
  | .litItem _ _ => false

/-- `MetaItem::value_str` lifted to nested items: the string of a
name-value meta item whose literal is a string. -/
def NestedMetaItem.value_str : NestedMetaItem → Option Name
  | .nameValue _ ⟨.str s⟩ _ => some s
  | _ => none

/-- `NestedMetaItem::name_value_literal`: name and literal of a name-value
meta item. -/
def NestedMetaItem.name_value_literal : NestedMetaItem → Option (Name × Lit)
  | .nameValue n lit _ => some (n, lit)
  | _ => none

/-- `NestedMetaItem::meta_item_list`: the nested item list of a list-kind meta
item. -/
def NestedMetaItem.meta_item_list : NestedMetaItem → Option (List NestedMetaItem)
  | .list _ items _ => some items
  | _ => none

/-- Failures of a call into this subsystem: `reported` models returning
`Err(ErrorReported)` after emitting diagnostics, `panicked` models an
`unwrap`, `expect` or `bug!` abort with its payload message. -/
inductive Failure where
  | reported
  | panicked (msg : String)
  deriving DecidableEq, Repr

/-- One emitted compiler diagnostic: the span it points at and its primary
message (`parse_error` / `span_err!` in the source). -/
structure Diag where
  span : Span
  message : String
  deriving DecidableEq, Repr

/-- The loop body of `names_from_matches_clause`, threading the two mutable
`Option` slots (`bound_name`, `self_name`) through the item list. -/
def names_from_matches_go :
    List NestedMetaItem → Option Name → Option Name →
    Except String (Option Name × Option Name)
  | [], bound_name, self_name => .ok (bound_name, self_name)
  | nested_item :: rest, bound_name, self_name =>
    match nested_item.literal with
    | some lit =>
      match lit.node with
      | .str name =>
        if bound_name.isSome then
          .error "Multiple string literals provided to rustc_on_unimplemented matches clause"
        else
          names_from_matches_go rest (some name) self_name
      | .other => names_from_matches_go rest bound_name self_name
    | none =>
      match nested_item.name_value_literal with
      | some (key, lit) =>
        if key == "Self" then
          match lit.node with
          | .str name =>
            if self_name.isSome then
              .error "Multiple Self types provided to rustc_on_unimplemented matches clause"
            else
              names_from_matches_go rest bound_name (some name)
          | .other => names_from_matches_go rest bound_name self_name
        else
          names_from_matches_go rest bound_name self_name
      | none => names_from_matches_go rest bound_name self_name

/-- Resolves `matches("TraitName", Self = "TypeName")` clauses to a trait name
and a self name (`names_from_matches_clause` in the source). -/
def names_from_matches_clause (nested_items : List NestedMetaItem) :
    Except String (Name × Name) :=
  match names_from_matches_go nested_items none none with
  | .error e => .error e
  | .ok (bound_name, self_name) =>
    match bound_name with
    | none => .error "matches clause should have a bound literal"
    | some b =>
      match self_name with
      | none => .error "matches clause should have a self KV-pair"
      | some s => .ok (b, s)

/-- Modelled from the spec (§1, §4.1): positions of a format-string
placeholder as produced by the external `fmt_macros` tokenizer — either a
positional (`ArgumentIs`) or a named (`ArgumentNamed`) substitution. -/
inductive Position where
  | argumentIs (idx : Nat)
  | argumentNamed (s : String)
  deriving DecidableEq, Repr

/-- Modelled from the spec (§4.1): a token of a format string as produced by
the external `fmt_macros` parser — a literal text run or a placeholder with
its position (the format spec carried by `fmt_macros::Argument` is never
consulted by this subsystem, so only the position is kept). -/
inductive Piece where
  | string (s : String)
  | nextArgument (position : Position)
  deriving DecidableEq, Repr

/-- One declared generic type parameter of a trait
(`ty::TypeParameterDef`): its name and its index into a substitution list. -/
structure TypeParam where
  name : Name
  idx : Nat
  deriving DecidableEq, Repr

/-- The slice of `TyCtxt` (and of the external collaborators reachable from
it) that this subsystem consumes, modelled from the spec (§6) as a record of
oracles:
* `item_name`, `item_path_str`, `generics_of`, `type_of`, `get_attrs` are the
  type-system lookup tables;
* `matches_resolutions` is the per-trait symbolic-name resolution table;
* `evaluate_obligation trait_bound_id self_ty` is the trait-satisfiability
  oracle, standing for `SelectionContext::evaluate_obligation` on the
  predicate `TraitRef { def_id: trait_bound_id, substs: [self_ty] }` in an
  empty `ParamEnv` (the fixed cause/inference plumbing is folded into it);
* `fmt_tokens` is the external `fmt_macros::Parser`, mapping a raw format
  string to its token sequence. -/
structure TyCtxt where
  item_name : DefId → Name
  item_path_str : DefId → String
  generics_of : DefId → List TypeParam
  type_of : DefId → Ty
  get_attrs : DefId → List NestedMetaItem
  matches_resolutions : DefId → Option (List (Name × DefId))
  evaluate_obligation : DefId → Ty → Bool
  fmt_tokens : String → List Piece

/-- A `ty::TraitRef`: a trait identity plus the concrete types substituted
for its generic parameters, each modelled by its printed form. -/
structure TraitRef where
  def_id : DefId
  substs : List Ty
  deriving DecidableEq, Repr

/-- `Substs::type_for_def`: the type substituted for a parameter, found by
the parameter's declaration index. -/
def typeForDef (substs : List Ty) (param : TypeParam) : Ty :=
  substs.getD param.idx ""

mutual

/-- Modelled from the spec (§4.2): the condition walker
`attr::eval_condition_with_custom_list_handler`, which is not under `src/`.
It evaluates a condition meta item against a default leaf tester and a custom
clause handler: the handler is consulted for every list-shaped clause and may
claim it (`some b`) or fall through (`none`); `any`/`all` are short-circuiting
disjunction/conjunction, `not` inverts its single argument; every other
clause is forwarded to the leaf tester. Handler failures (the `unwrap` inside
the `matches` handlers) abort the walk, hence the `Except`. -/
def eval_condition (evalLeaf : NestedMetaItem → Bool)
    (handler : NestedMetaItem → List NestedMetaItem → Except Failure (Option Bool)) :
    NestedMetaItem → Except Failure Bool
  | .list name items span =>
    match handler (.list name items span) items with
    | .error f => .error f
    | .ok (some b) => .ok b
    | .ok none =>
      match name with
      | "any" => eval_condition_any evalLeaf handler items
      | "all" => eval_condition_all evalLeaf handler items
      | "not" =>
        match items with
        | [mi] =>
          match eval_condition evalLeaf handler mi with
          | .error f => .error f
          | .ok b => .ok (!b)
        | _ => .ok false
      | _ => .ok (evalLeaf (.list name items span))
  | .litItem _ _ => .ok false
  | mi => .ok (evalLeaf mi)

def eval_condition_any (evalLeaf : NestedMetaItem → Bool)
    (handler : NestedMetaItem → List NestedMetaItem → Except Failure (Option Bool)) :
    List NestedMetaItem → Except Failure Bool
  | [] => .ok false
  | mi :: rest =>
    match eval_condition evalLeaf handler mi with
    | .error f => .error f
    | .ok true => .ok true
    | .ok false => eval_condition_any evalLeaf handler rest

def eval_condition_all (evalLeaf : NestedMetaItem → Bool)
    (handler : NestedMetaItem → List NestedMetaItem → Except Failure (Option Bool)) :
    List NestedMetaItem → Except Failure Bool
  | [] => .ok true
  | mi :: rest =>
    match eval_condition evalLeaf handler mi with
    | .error f => .error f
    | .ok false => .ok false
    | .ok true => eval_condition_all evalLeaf handler rest

end

/-- A validated format template (`OnUnimplementedFormatString`): a newtype
over the raw interned string. -/
structure OnUnimplementedFormatString where
  raw : String
  deriving DecidableEq, Repr

/-- The result of resolving a directive (`OnUnimplementedNote`). -/
structure OnUnimplementedNote where
  message : Option String
  label : Option String
  deriving DecidableEq, Repr

/-- A directive tree node (`OnUnimplementedDirective`). -/
inductive OnUnimplementedDirective where
  | mk (condition : Option NestedMetaItem)
       (subcommands : List OnUnimplementedDirective)
       (message : Option OnUnimplementedFormatString)
       (label : Option OnUnimplementedFormatString)
  deriving Repr

def OnUnimplementedDirective.condition : OnUnimplementedDirective → Option NestedMetaItem
  | .mk c _ _ _ => c

def OnUnimplementedDirective.subcommands :
    OnUnimplementedDirective → List OnUnimplementedDirective
  | .mk _ s _ _ => s

def OnUnimplementedDirective.message :
    OnUnimplementedDirective → Option OnUnimplementedFormatString
  | .mk _ _ m _ => m

def OnUnimplementedDirective.label :
    OnUnimplementedDirective → Option OnUnimplementedFormatString
  | .mk _ _ _ l => l

/-- The loop body of `OnUnimplementedFormatString::verify`: folds one format
token into the accumulated (emitted diagnostics, result) pair. `name` is the
owning trait's name, `types` its generic type parameters, `span` the span the
whole template was attached to. -/
def verifyToken (name : Name) (types : List TypeParam) (span : Span)
    (acc : List Diag × Except Failure Unit) (token : Piece) :
    List Diag × Except Failure Unit :=
  match token with
  | .string _ => acc
  | .nextArgument a =>
    match a with
    | .argumentNamed s =>
      if s == "Self" then acc
      else if s == name then acc
      else
        match types.find? (fun t => t.name == s) with
        | some _ => acc
        | none =>
          (acc.1 ++ [⟨span, "there is no type parameter " ++ s ++ " on trait " ++ name⟩],
           .error .reported)
    | .argumentIs _ =>
      (acc.1 ++ [⟨span, "only named substitution parameters are allowed"⟩],
       .error .reported)

/-- `OnUnimplementedFormatString::verify`: walks every token of the template,
emitting one diagnostic per violation and failing if any occurred. -/
def OnUnimplementedFormatString.verify (self : OnUnimplementedFormatString)
    (tcx : TyCtxt) (trait_def_id : DefId) (span : Span) :
    List Diag × Except Failure Unit :=
  let name := tcx.item_name trait_def_id
  let generics := tcx.generics_of trait_def_id
  let parser := tcx.fmt_tokens self.raw
  parser.foldl (verifyToken name generics span) ([], .ok ())

/-- `OnUnimplementedFormatString::try_parse`: construct-and-validate. -/
def OnUnimplementedFormatString.try_parse (tcx : TyCtxt) (trait_def_id : DefId)
    (s : String) (err_sp : Span) :
    List Diag × Except Failure OnUnimplementedFormatString :=
  let result := OnUnimplementedFormatString.mk s
  match result.verify tcx trait_def_id err_sp with
  | (ds, .ok ()) => (ds, .ok result)
  | (ds, .error e) => (ds, .error e)

/-- The closure `OnUnimplementedFormatString::format` maps over the token
sequence: `name` is the owning trait's name, `trait_str` its printed path and
`generic_map` the parameter-name to printed-type map built from the trait's
generics. The two `bug!` branches of the source (a named placeholder that is
neither a generic parameter nor the trait's name, and any positional
placeholder) are modelled as `Failure.panicked`. -/
def formatPiece (name : Name) (trait_str : String)
    (generic_map : List (Name × Ty)) : Piece → Except Failure String
  | .string s => .ok s
  | .nextArgument (.argumentNamed s) =>
    match (generic_map.find? (fun (entry : Name × Ty) => entry.1 == s)).map
        (fun (entry : Name × Ty) => entry.2) with
    | some val => .ok val
    | none =>
      if s == name then .ok trait_str
      else .error (.panicked ("broken on_unimplemented: no argument matching " ++ s))
  | .nextArgument (.argumentIs _) =>
    .error (.panicked "broken on_unimplemented - bad format arg")

/-- `OnUnimplementedFormatString::format`: renders the template against a
trait reference by mapping `formatPiece` over the token sequence and
concatenating the results (`collect`); the first failing token aborts. -/
def OnUnimplementedFormatString.format (self : OnUnimplementedFormatString)
    (tcx : TyCtxt) (trait_ref : TraitRef) : Except Failure String :=
  match (tcx.fmt_tokens self.raw).mapM
      (formatPiece (tcx.item_name trait_ref.def_id)
        (tcx.item_path_str trait_ref.def_id)
        ((tcx.generics_of trait_ref.def_id).map
          (fun param => (param.name, typeForDef trait_ref.substs param)))) with
  | .error f => .error f
  | .ok parts => .ok (String.join parts)

/-- The custom list handler installed by `parse` while walking an
`on(...)` condition: it claims `matches(...)` clauses, eagerly checking their
shape with `names_from_matches_clause(..).unwrap()` (a malformed clause
panics), and falls through for every other clause. -/
def parseMatchesHandler (attr_item : NestedMetaItem)
    (nested_list : List NestedMetaItem) : Except Failure (Option Bool) :=
  if attr_item.metaName != "matches" then .ok none
  else
    match names_from_matches_clause nested_list with
    | .ok _ => .ok (some true)
    | .error e => .error (.panicked e)

mutual

/-- `OnUnimplementedDirective::parse`: builds a directive from an attribute
item list. For a non-root directive the first item must be a meta item and is
walked once (with an all-true leaf tester) to eagerly check `matches`
clauses, then stored as the condition. The first component collects the
diagnostics emitted along the way. -/
def OnUnimplementedDirective.parse (tcx : TyCtxt) (trait_def_id : DefId)
    (items : List NestedMetaItem) (span : Span) (is_root : Bool) :
    List Diag × Except Failure OnUnimplementedDirective :=
  if is_root then
    OnUnimplementedDirective.parseItems tcx trait_def_id span none true
      items none none [] false []
  else
    match items with
    | [] =>
      ([⟨span, "empty `on`-clause in `#[rustc_on_unimplemented]`"⟩], .error .reported)
    | first :: rest =>
      match first.meta_item with
      | none =>
        ([⟨span, "invalid `on`-clause in `#[rustc_on_unimplemented]`"⟩], .error .reported)
      | some cond =>
        match eval_condition (fun _ => true) parseMatchesHandler cond with
        | .error f => ([], .error f)
        | .ok _ =>
          OnUnimplementedDirective.parseItems tcx trait_def_id span (some cond) false
            rest none none [] false []
termination_by (sizeOf items, 1)

/-- The item loop of `OnUnimplementedDirective::parse`, threading the mutable
state (`message`, `label`, `subcommands`, `errored`) and the emitted
diagnostics through the remaining items. -/
def OnUnimplementedDirective.parseItems (tcx : TyCtxt) (trait_def_id : DefId)
    (span : Span) (condition : Option NestedMetaItem) (is_root : Bool) :
    List NestedMetaItem → Option OnUnimplementedFormatString →
    Option OnUnimplementedFormatString → List OnUnimplementedDirective →
    Bool → List Diag → List Diag × Except Failure OnUnimplementedDirective
  | [], message, label, subcommands, errored, diags =>
    (diags,
     if errored then .error .reported
     else .ok (.mk condition subcommands message label))
  | item :: rest, message, label, subcommands, errored, diags =>
    if item.check_name "message" && message.isNone then
      match item.value_str with
      | some message_ =>
        match OnUnimplementedFormatString.try_parse tcx trait_def_id message_ span with
        | (ds, .ok fs) =>
          OnUnimplementedDirective.parseItems tcx trait_def_id span condition is_root
            rest (some fs) label subcommands errored (diags ++ ds)
        | (ds, .error e) => (diags ++ ds, .error e)
      | none =>
        OnUnimplementedDirective.parseItems tcx trait_def_id span condition is_root
          rest message label subcommands errored
          (diags ++ [⟨item.span, "this attribute must have a valid value"⟩])
    else if item.check_name "label" && label.isNone then
      match item.value_str with
      | some label_ =>
        match OnUnimplementedFormatString.try_parse tcx trait_def_id label_ span with
        | (ds, .ok fs) =>
          OnUnimplementedDirective.parseItems tcx trait_def_id span condition is_root
            rest message (some fs) subcommands errored (diags ++ ds)
        | (ds, .error e) => (diags ++ ds, .error e)
      | none =>
        OnUnimplementedDirective.parseItems tcx trait_def_id span condition is_root
          rest message label subcommands errored
          (diags ++ [⟨item.span, "this attribute must have a valid value"⟩])
    else if item.check_name "on" && is_root && message.isNone && label.isNone then
      match h : item.meta_item_list with
      | some list_items =>
        match OnUnimplementedDirective.parse tcx trait_def_id list_items item.span false with
        | (ds, .ok subcommand) =>
          OnUnimplementedDirective.parseItems tcx trait_def_id span condition is_root
            rest message label (subcommands ++ [subcommand]) errored (diags ++ ds)
        | (ds, .error .reported) =>
          OnUnimplementedDirective.parseItems tcx trait_def_id span condition is_root
            rest message label subcommands true (diags ++ ds)
        | (ds, .error (.panicked m)) => (diags ++ ds, .error (.panicked m))
      | none =>
        OnUnimplementedDirective.parseItems tcx trait_def_id span condition is_root
          rest message label subcommands errored
          (diags ++ [⟨item.span, "this attribute must have a valid value"⟩])
    else
      OnUnimplementedDirective.parseItems tcx trait_def_id span condition is_root
        rest message label subcommands errored
        (diags ++ [⟨item.span, "this attribute must have a valid value"⟩])
termination_by l _m _lb _sc _er _dg => (sizeOf l, 0)
decreasing_by
  all_goals
    (try have hsz : sizeOf list_items < sizeOf item := by
          cases item <;> simp_all [NestedMetaItem.meta_item_list] <;> omega)
  all_goals decreasing_tactic

end

/-- `OnUnimplementedDirective::of_item`: looks up the
`rustc_on_unimplemented` attribute on the implementing item and builds its
directive — a root parse for a nested list, a degenerate label-only directive
for a bare string value, an error otherwise. -/
def OnUnimplementedDirective.of_item (tcx : TyCtxt)
    (trait_def_id impl_def_id : DefId) :
    List Diag × Except Failure (Option OnUnimplementedDirective) :=
  let attrs := tcx.get_attrs impl_def_id
  match attrs.find? (fun a => a.check_name "rustc_on_unimplemented") with
  | none => ([], .ok none)
  | some attr =>
    match attr.meta_item_list with
    | some items =>
      match OnUnimplementedDirective.parse tcx trait_def_id items attr.span true with
      | (ds, .ok d) => (ds, .ok (some d))
      | (ds, .error e) => (ds, .error e)
    | none =>
      match attr.value_str with
      | some value =>
        match OnUnimplementedFormatString.try_parse tcx trait_def_id value attr.span with
        | (ds, .ok fs) => (ds, .ok (some (.mk none [] none (some fs))))
        | (ds, .error e) => (ds, .error e)
      | none =>
        ([⟨attr.span, "`#[rustc_on_unimplemented]` requires a value"⟩], .error .reported)

/-- The default leaf tester `evaluate` installs: membership of the leaf's
name and optional string value in the caller-supplied options. -/
def evaluateLeaf (options : List (String × Option String))
    (c : NestedMetaItem) : Bool :=
  options.contains (c.metaName, c.value_str)

/-- The custom list handler `evaluate` installs: claims `matches(...)`
clauses, resolving the two extracted names through the per-trait resolutions
table and asking the trait-satisfiability oracle; every `unwrap`/`expect` on
that path is modelled as a panic. -/
def evaluateHandler (tcx : TyCtxt) (trait_ref : TraitRef)
    (attr_item : NestedMetaItem) (nested_list : List NestedMetaItem) :
    Except Failure (Option Bool) :=
  if attr_item.metaName != "matches" then .ok none
  else
    match names_from_matches_clause nested_list with
    | .error e => .error (.panicked e)
    | .ok (trait_bound_name, self_name) =>
      match tcx.matches_resolutions trait_ref.def_id with
      | none => .error (.panicked "No matches resolutions found for trait")
      | some resolutions =>
        match (resolutions.find? (fun res => res.1 == trait_bound_name)).map
            (fun (res : Name × DefId) => res.2) with
        | none => .error (.panicked "no resolution for matches bound")
        | some trait_bound_id =>
          match (resolutions.find? (fun res => res.1 == self_name)).map
              (fun (res : Name × DefId) => res.2) with
          | none => .error (.panicked "no resolution for matches self type")
          | some self_id =>
            let self_ty := tcx.type_of self_id
            let did_match := tcx.evaluate_obligation trait_bound_id self_ty
            .ok (some did_match)

/-- Whether one candidate of `evaluate`'s walk applies: `.ok true` when the
candidate has no condition or its condition evaluates true, `.ok false` when
the condition evaluates false (the candidate is skipped), an error when the
condition walk panicked. -/
def condHolds (tcx : TyCtxt) (trait_ref : TraitRef)
    (options : List (String × Option String))
    (command : OnUnimplementedDirective) : Except Failure Bool :=
  match command.condition with
  | none => .ok true
  | some condition =>
    eval_condition (evaluateLeaf options) (evaluateHandler tcx trait_ref) condition

/-- The candidate loop of `OnUnimplementedDirective::evaluate`: processes the
(already reversed) candidate list in order, each applying candidate
overwriting the `message` and `label` slots it carries. -/
def evaluateGo (tcx : TyCtxt) (trait_ref : TraitRef)
    (options : List (String × Option String)) :
    List OnUnimplementedDirective → Option OnUnimplementedFormatString →
    Option OnUnimplementedFormatString →
    Except Failure (Option OnUnimplementedFormatString × Option OnUnimplementedFormatString)
  | [], message, label => .ok (message, label)
  | command :: rest, message, label =>
    match condHolds tcx trait_ref options command with
    | .error f => .error f
    | .ok false => evaluateGo tcx trait_ref options rest message label
    | .ok true =>
      evaluateGo tcx trait_ref options rest
        (match command.message with
         | some message_ => some message_
         | none => message)
        (match command.label with
         | some label_ => some label_
         | none => label)

/-- The tail of `evaluate`: renders the accumulated label and message slots
(in the order the source's struct literal evaluates them) into the returned
note. -/
def renderNote (tcx : TyCtxt) (trait_ref : TraitRef)
    (message label : Option OnUnimplementedFormatString) :
    Except Failure OnUnimplementedNote :=
  match (match label with
         | none => Except.ok none
         | some l =>
           match l.format tcx trait_ref with
           | .error f => .error f
           | .ok s => .ok (some s)) with
  | .error f => .error f
  | .ok labelStr =>
    match (match message with
           | none => Except.ok none
           | some m =>
             match m.format tcx trait_ref with
             | .error f => .error f
             | .ok s => .ok (some s)) with
    | .error f => .error f
    | .ok messageStr => .ok ⟨messageStr, labelStr⟩

/-- `OnUnimplementedDirective::evaluate`: walks the subcommands followed by
the root, in reverse, then renders the winning message/label templates. -/
def OnUnimplementedDirective.evaluate (self : OnUnimplementedDirective)
    (tcx : TyCtxt) (trait_ref : TraitRef)
    (options : List (String × Option String)) :
    Except Failure OnUnimplementedNote :=
  match evaluateGo tcx trait_ref options
      ((self.subcommands ++ [self]).reverse) none none with
  | .error f => .error f
  | .ok (message, label) => renderNote tcx trait_ref message label

/-- Spec-side characterization (following the spec's words, §4.1) of a format
token that validation accepts for the trait `trait_def_id`: literal text is
always fine; a named placeholder must equal `"Self"`, the trait's own name,
or the name of one of the trait's declared generic type parameters; a
positional placeholder is never accepted. -/
def pieceAllowed (tcx : TyCtxt) (trait_def_id : DefId) : Piece → Bool
  | .string _ => true
  | .nextArgument (.argumentNamed s) =>
    s == "Self" || s == tcx.item_name trait_def_id ||
      (tcx.generics_of trait_def_id).any (fun t => t.name == s)
  | .nextArgument (.argumentIs _) => false

/-- The diagnostic `verify` emits for one format token, if any: mirrors the
violation branches of the `verify` loop. -/
def tokenDiag (name : Name) (types : List TypeParam) (span : Span) :
    Piece → Option Diag
  | .string _ => none
  | .nextArgument (.argumentNamed s) =>
    if s == "Self" then none
    else if s == name then none
    else
      match types.find? (fun t => t.name == s) with
      | some _ => none
      | none => some ⟨span, "there is no type parameter " ++ s ++ " on trait " ++ name⟩
  | .nextArgument (.argumentIs _) =>
    some ⟨span, "only named substitution parameters are allowed"⟩

/-- Spec-side (following the spec's words, §4.4): the template contributed by
the first candidate in forward order whose condition holds and which carries
a value in the projected slot (`proj` is the message or the label field). -/
def forwardSlot (tcx : TyCtxt) (trait_ref : TraitRef)
    (options : List (String × Option String))
    (proj : OnUnimplementedDirective → Option OnUnimplementedFormatString) :
    List OnUnimplementedDirective → Option OnUnimplementedFormatString
  | [] => none
  | c :: rest =>
    match condHolds tcx trait_ref options c with
    | .ok true =>
      match proj c with
      | some fs => some fs
      | none => forwardSlot tcx trait_ref options proj rest
    | _ => forwardSlot tcx trait_ref options proj rest

/-- A `matches(...)` argument that `names_from_matches_clause` silently
skips: anything that is neither a bare string literal nor a
`Self = "<string>"` name-value pair — non-string literals, name-value pairs
with a key other than `Self`, `Self` pairs whose value is not a string
literal, and word or list meta items. -/
def silentlySkipped : NestedMetaItem → Bool
  | .litItem ⟨.str _⟩ _ => false
  | .litItem ⟨.other⟩ _ => true
  | .nameValue k ⟨.str _⟩ _ => k != "Self"
  | .nameValue _ ⟨.other⟩ _ => true
  | .word _ _ => true
  | .list _ _ _ => true

/-! ## Concrete instances used by witnesses and counterexamples -/

/-- A concrete external environment: one trait (`Foo`, printed
`crate::Foo`) whose generics are the implicit `Self` and one parameter `T`,
a resolutions table mapping `Bar` to definition `10` and `T` to definition
`20`, an oracle that answers true exactly for (`Bar`, `MyType`), and a
tokenizer that treats every raw string as a single literal run. -/
def sampleTcx : TyCtxt where
  item_name := fun _ => "Foo"
  item_path_str := fun _ => "crate::Foo"
  generics_of := fun _ => [⟨"Self", 0⟩, ⟨"T", 1⟩]
  type_of := fun d => if d == 20 then "MyType" else "OtherType"
  get_attrs := fun _ => [.nameValue "rustc_on_unimplemented" ⟨.str "no way"⟩ 3]
  matches_resolutions := fun _ => some [("Bar", 10), ("T", 20)]
  evaluate_obligation := fun tb ty => tb == 10 && ty == "MyType"
  fmt_tokens := fun s => [.string s]

/-- A variant of the sample environment whose tokenizer parses the raw
string `TPL` into a literal run followed by the placeholders `Self`, `Foo`
(the trait's own name) and `T` (a declared parameter). -/
def c6Tcx : TyCtxt :=
  { sampleTcx with
    fmt_tokens := fun s =>
      if s == "TPL" then
        [.string "type ", .nextArgument (.argumentNamed "Self"),
         .nextArgument (.argumentNamed "Foo"), .nextArgument (.argumentNamed "T")]
      else [.string s] }

/-- Subcommand `A` of the scenario in C1: condition `flag1`, message `m1`. -/
def c1SubA : OnUnimplementedDirective :=
  .mk (some (.word "flag1" 1)) [] (some ⟨"m1"⟩) none

/-- Subcommand `B` of the scenario in C1: condition `flag2`, message `m2`. -/
def c1SubB : OnUnimplementedDirective :=
  .mk (some (.word "flag2" 2)) [] (some ⟨"m2"⟩) none

/-- The root directive of the scenario in C1: subcommands `A`, `B` and root
message `m0`. -/
def c1Root : OnUnimplementedDirective :=
  .mk none [c1SubA, c1SubB] (some ⟨"m0"⟩) none

/-- A malformed `matches` clause carrying two bare string literals. -/
def c4BadMatches : NestedMetaItem :=
  .list "matches" [.litItem ⟨.str "A"⟩ 0, .litItem ⟨.str "B"⟩ 0] 0

/-- A condition hiding the malformed clause behind a short-circuiting
disjunction whose first disjunct every parse-time leaf test accepts. -/
def c4Cond : NestedMetaItem :=
  .list "any" [.word "flagX" 0, c4BadMatches] 0

/-- The directive the parser builds for `on(c4Cond)`. -/
def c4Dir : OnUnimplementedDirective := .mk (some c4Cond) [] none none

/-- A root directive carrying `c4Dir` as its only subcommand. -/
def c4Root : OnUnimplementedDirective := .mk none [c4Dir] none none

/-- The directive the parser builds for the root item list
`[on(flagY)]`: one subcommand with condition `flagY` and nothing else. -/
def c8Dir : OnUnimplementedDirective :=
  .mk none [.mk (some (.word "flagY" 1)) [] none none] none none

/-! ## Helper lemmas about `verify` -/

theorem verifyToken_eq (name : Name) (types : List TypeParam) (span : Span)
    (acc : List Diag × Except Failure Unit) (token : Piece) :
    verifyToken name types span acc token =
      match tokenDiag name types span token with
      | none => acc
      | some d => (acc.1 ++ [d], .error .reported) := by
  cases token with
  | string s => rfl
  | nextArgument a =>
    cases a with
    | argumentIs n => rfl
    | argumentNamed s =>
      by_cases h1 : s = "Self"
      · simp [verifyToken, tokenDiag, h1]
      · by_cases h2 : s = name
        · simp [verifyToken, tokenDiag, h1, h2]
        · cases hf : types.find? (fun t => t.name == s) with
          | some t => simp [verifyToken, tokenDiag, h1, h2, hf]
          | none => simp [verifyToken, tokenDiag, h1, h2, hf]

theorem verify_foldl_diags (name : Name) (types : List TypeParam) (span : Span)
    (pieces : List Piece) (ds : List Diag) (r : Except Failure Unit) :
    (pieces.foldl (verifyToken name types span) (ds, r)).1
      = ds ++ pieces.filterMap (tokenDiag name types span) := by
  induction pieces generalizing ds r with
  | nil => simp
  | cons p rest ih =>
    simp only [List.foldl_cons, List.filterMap_cons]
    rw [verifyToken_eq]
    cases h : tokenDiag name types span p with
    | none => simp [h, ih]
    | some d => simp [h, ih]

theorem verify_foldl_ok (name : Name) (types : List TypeParam) (span : Span)
    (pieces : List Piece) (ds : List Diag) (r : Except Failure Unit) :
    (pieces.foldl (verifyToken name types span) (ds, r)).2 = .ok () ↔
      (r = .ok () ∧ ∀ p ∈ pieces, tokenDiag name types span p = none) := by
  induction pieces generalizing ds r with
  | nil =>
    simp only [List.foldl_nil, List.not_mem_nil]
    exact ⟨fun h => ⟨h, by simp⟩, fun h => h.1⟩
  | cons p rest ih =>
    simp only [List.foldl_cons]
    rw [verifyToken_eq]
    cases h : tokenDiag name types span p with
    | none =>
      rw [ih]
      simp [h]
    | some d =>
      rw [ih]
      simp [h]

theorem verify_foldl_cases (name : Name) (types : List TypeParam) (span : Span)
    (pieces : List Piece) (ds : List Diag) (r : Except Failure Unit)
    (hr : r = .ok () ∨ r = .error .reported) :
    (pieces.foldl (verifyToken name types span) (ds, r)).2 = .ok () ∨
      (pieces.foldl (verifyToken name types span) (ds, r)).2 = .error .reported := by
  induction pieces generalizing ds r with
  | nil => simpa using hr
  | cons p rest ih =>
    simp only [List.foldl_cons]
    rw [verifyToken_eq]
    cases h : tokenDiag name types span p with
    | none => exact ih ds r hr
    | some d => exact ih _ _ (Or.inr rfl)

theorem tokenDiag_none_iff (tcx : TyCtxt) (trait_def_id : DefId) (span : Span)
    (p : Piece) :
    tokenDiag (tcx.item_name trait_def_id) (tcx.generics_of trait_def_id) span p = none ↔
      pieceAllowed tcx trait_def_id p = true := by
  cases p with
  | string s => simp [tokenDiag, pieceAllowed]
  | nextArgument a =>
    cases a with
    | argumentIs n => simp [tokenDiag, pieceAllowed]
    | argumentNamed s =>
      by_cases h1 : s = "Self"
      · simp [tokenDiag, pieceAllowed, h1]
      · by_cases h2 : s = tcx.item_name trait_def_id
        · simp [tokenDiag, pieceAllowed, h1, h2]
        · cases hf : (tcx.generics_of trait_def_id).find? (fun t => t.name == s) with
          | some t =>
            have hmem := List.find?_some hf
            have hmem2 := List.mem_of_find?_eq_some hf
            simp only [tokenDiag, pieceAllowed, h1, h2]
            simp [hf, List.any_eq_true]
            exact Or.inr ⟨t, hmem2, by simpa using hmem⟩
          | none =>
            have hnone := List.find?_eq_none.mp hf
            simp only [tokenDiag, pieceAllowed, h1, h2]
            simp [hf, List.any_eq_true, h1, h2]
            intro x hx
            simpa using hnone x hx

theorem tokenDiag_isSome (tcx : TyCtxt) (trait_def_id : DefId) (span : Span)
    (p : Piece) :
    (tokenDiag (tcx.item_name trait_def_id) (tcx.generics_of trait_def_id) span p).isSome
      = !(pieceAllowed tcx trait_def_id p) := by
  have h := tokenDiag_none_iff tcx trait_def_id span p
  rcases h2 : tokenDiag (tcx.item_name trait_def_id) (tcx.generics_of trait_def_id) span p
    with _ | d2
  · rw [h2] at h
    simp [h.mp rfl]
  · rw [h2] at h
    rcases hp : pieceAllowed tcx trait_def_id p
    · simp
    · exact absurd (h.mpr hp) (by simp)

theorem filterMap_length_eq {α β : Type} (f : α → Option β) (l : List α) :
    (l.filterMap f).length = (l.filter (fun a => (f a).isSome)).length := by
  induction l with
  | nil => rfl
  | cons a t ih => cases h : f a <;> simp [h, ih, List.filter_cons]

theorem verify_ok_iff (tcx : TyCtxt) (trait_def_id : DefId)
    (raw : String) (err_sp : Span) :
    ((OnUnimplementedFormatString.mk raw).verify tcx trait_def_id err_sp).2 = .ok () ↔
      ∀ p ∈ tcx.fmt_tokens raw, pieceAllowed tcx trait_def_id p = true := by
  unfold OnUnimplementedFormatString.verify
  rw [verify_foldl_ok]
  simp only [true_and]
  constructor
  · intro h p hp
    exact (tokenDiag_none_iff tcx trait_def_id err_sp p).mp (h p hp)
  · intro h p hp
    exact (tokenDiag_none_iff tcx trait_def_id err_sp p).mpr (h p hp)

/-- C2: for every raw template string, template construct-and-validate
(`OnUnimplementedFormatString::try_parse`) succeeds if and only if every
named placeholder in it equals the literal string `"Self"`, equals the owning
trait's own name, or equals one of the trait's declared generic type
parameter names, and the string contains no positional (unnamed or indexed)
placeholder. -/
theorem c2_try_parse_ok_iff_placeholders_allowed (tcx : TyCtxt)
    (trait_def_id : DefId) (raw : String) (err_sp : Span) :
    (OnUnimplementedFormatString.try_parse tcx trait_def_id raw err_sp).2
        = .ok (OnUnimplementedFormatString.mk raw) ↔
      ∀ p ∈ tcx.fmt_tokens raw, pieceAllowed tcx trait_def_id p = true := by
  have hv := verify_ok_iff tcx trait_def_id raw err_sp
  unfold OnUnimplementedFormatString.try_parse
  rcases h : (OnUnimplementedFormatString.mk raw).verify tcx trait_def_id err_sp
    with ⟨ds, r⟩
  rw [h] at hv
  simp only [h]
  cases r with
  | ok u =>
    cases u
    simpa using hv
  | error e =>
    constructor
    · intro hbad
      exfalso
      simp at hbad
    · intro hr
      exfalso
      have hcontra := hv.mpr hr
      simp at hcontra

/-- C7: template validation examines the whole token sequence in one pass and
reports every violation found rather than stopping at the first — the emitted
diagnostics are exactly the per-token violation diagnostics in order, so a
template with two bad placeholders produces two diagnostics — and the overall
validation fails exactly when at least one violation occurred. -/
theorem c7_verify_reports_every_violation (tcx : TyCtxt) (trait_def_id : DefId)
    (raw : String) (span : Span) :
    ((OnUnimplementedFormatString.mk raw).verify tcx trait_def_id span).1
        = (tcx.fmt_tokens raw).filterMap
            (tokenDiag (tcx.item_name trait_def_id) (tcx.generics_of trait_def_id) span)
    ∧ ((OnUnimplementedFormatString.mk raw).verify tcx trait_def_id span).1.length
        = ((tcx.fmt_tokens raw).filter
            (fun p => !(pieceAllowed tcx trait_def_id p))).length
    ∧ (((OnUnimplementedFormatString.mk raw).verify tcx trait_def_id span).2
          = .error .reported ↔
        ∃ p ∈ tcx.fmt_tokens raw, pieceAllowed tcx trait_def_id p = false) := by
  refine ⟨?_, ?_, ?_⟩
  · unfold OnUnimplementedFormatString.verify
    simpa using verify_foldl_diags (tcx.item_name trait_def_id)
      (tcx.generics_of trait_def_id) span (tcx.fmt_tokens raw) [] (.ok ())
  · unfold OnUnimplementedFormatString.verify
    have h1 := verify_foldl_diags (tcx.item_name trait_def_id)
      (tcx.generics_of trait_def_id) span (tcx.fmt_tokens raw) [] (.ok ())
    simp only [List.nil_append] at h1
    rw [h1, filterMap_length_eq]
    congr 1
    apply List.filter_congr
    intro p _
    rw [tokenDiag_isSome]
  · have hcases :
        ((OnUnimplementedFormatString.mk raw).verify tcx trait_def_id span).2 = .ok () ∨
        ((OnUnimplementedFormatString.mk raw).verify tcx trait_def_id span).2
          = .error .reported := by
      unfold OnUnimplementedFormatString.verify
      exact verify_foldl_cases (tcx.item_name trait_def_id)
        (tcx.generics_of trait_def_id) span (tcx.fmt_tokens raw) [] (.ok ())
        (Or.inl rfl)
    constructor
    · intro h
      by_contra hng
      push_neg at hng
      have hall : ∀ p ∈ tcx.fmt_tokens raw, pieceAllowed tcx trait_def_id p = true := by
        intro p hp
        rcases hb : pieceAllowed tcx trait_def_id p
        · exact absurd hb (hng p hp)
        · rfl
      have hok := (verify_ok_iff tcx trait_def_id raw span).mpr hall
      rw [h] at hok
      simp at hok
    · intro h
      rcases hcases with hc | hc
      · exfalso
        obtain ⟨p, hp, hfalse⟩ := h
        have hgood := (verify_ok_iff tcx trait_def_id raw span).mp hc p hp
        rw [hgood] at hfalse
        exact absurd hfalse (by simp)
      · exact hc

/-! ## Render totality (C6) -/

theorem mapM_ok_of_all {α β : Type} (f : α → Except Failure β) (l : List α)
    (h : ∀ a ∈ l, ∃ b, f a = .ok b) : ∃ bs, l.mapM f = .ok bs := by
  induction l with
  | nil => exact ⟨[], rfl⟩
  | cons a t ih =>
    obtain ⟨b, hb⟩ := h a (List.mem_cons_self a t)
    obtain ⟨bs, hbs⟩ := ih (fun x hx => h x (List.mem_cons_of_mem a hx))
    refine ⟨b :: bs, ?_⟩
    rw [List.mapM_cons, hb, hbs]
    rfl

theorem try_parse_ok_inv (tcx : TyCtxt) (trait_def_id : DefId)
    (raw : String) (span : Span) (fs : OnUnimplementedFormatString)
    (h : (OnUnimplementedFormatString.try_parse tcx trait_def_id raw span).2 = .ok fs) :
    fs = OnUnimplementedFormatString.mk raw ∧
      ((OnUnimplementedFormatString.mk raw).verify tcx trait_def_id span).2 = .ok () := by
  unfold OnUnimplementedFormatString.try_parse at h
  rcases hv : (OnUnimplementedFormatString.mk raw).verify tcx trait_def_id span
    with ⟨ds, r⟩
  simp only [hv] at h
  cases r with
  | ok u =>
    cases u
    simp at h
    exact ⟨h.symm, rfl⟩
  | error e => simp at h

theorem find?_map_generics_isSome (generics : List TypeParam) (substs : List Ty)
    (s : String) (h : generics.any (fun t => t.name == s) = true) :
    ((generics.map (fun param => (param.name, typeForDef substs param))).find?
      (fun (entry : Name × Ty) => entry.1 == s)).isSome = true := by
  rw [List.find?_isSome]
  rw [List.any_eq_true] at h
  obtain ⟨t, ht, hts⟩ := h
  exact ⟨(t.name, typeForDef substs t), List.mem_map_of_mem _ ht, hts⟩

/-- C6: for every template whose construct-and-validate succeeded for a
trait, and every trait reference with that trait's identity, rendering
reaches no failure case: `format` totally returns a string. The hypothesis
`hself` is the type-system invariant that a trait's generic parameter list
contains the implicit `Self` parameter (which is how the renderer resolves
the `Self` placeholder). -/
theorem c6_format_total_after_validation (tcx : TyCtxt) (trait_ref : TraitRef)
    (trait_def_id : DefId) (raw : String) (span : Span)
    (fs : OnUnimplementedFormatString)
    (htp : (OnUnimplementedFormatString.try_parse tcx trait_def_id raw span).2 = .ok fs)
    (hid : trait_ref.def_id = trait_def_id)
    (hself : (tcx.generics_of trait_def_id).any (fun t => t.name == "Self") = true) :
    ∃ s, fs.format tcx trait_ref = .ok s := by
  obtain ⟨hfs, hver⟩ := try_parse_ok_inv tcx trait_def_id raw span fs htp
  subst hfs
  subst hid
  have hall := (verify_ok_iff tcx trait_ref.def_id raw span).mp hver
  have hpieces : ∀ p ∈ tcx.fmt_tokens raw,
      ∃ b, formatPiece (tcx.item_name trait_ref.def_id)
        (tcx.item_path_str trait_ref.def_id)
        ((tcx.generics_of trait_ref.def_id).map
          (fun param => (param.name, typeForDef trait_ref.substs param))) p = .ok b := by
    intro p hp
    have hpa := hall p hp
    cases p with
    | string s => exact ⟨s, rfl⟩
    | nextArgument a =>
      cases a with
      | argumentIs n => simp [pieceAllowed] at hpa
      | argumentNamed s =>
        simp only [pieceAllowed, Bool.or_eq_true, beq_iff_eq] at hpa
        rcases hfind : ((tcx.generics_of trait_ref.def_id).map
            (fun param => (param.name, typeForDef trait_ref.substs param))).find?
            (fun (entry : Name × Ty) => entry.1 == s) with _ | entry
        · rcases hpa with (hself' | hname) | hparam
          · exfalso
            have := find?_map_generics_isSome (tcx.generics_of trait_ref.def_id)
              trait_ref.substs "Self" hself
            rw [hself'] at hfind
            rw [hfind] at this
            simp at this
          · refine ⟨tcx.item_path_str trait_ref.def_id, ?_⟩
            simp only [formatPiece]
            rw [hfind]
            simp [hname]
          · exfalso
            have := find?_map_generics_isSome (tcx.generics_of trait_ref.def_id)
              trait_ref.substs s hparam
            rw [hfind] at this
            simp at this
        · refine ⟨entry.2, ?_⟩
          simp only [formatPiece]
          rw [hfind]
          rfl
  obtain ⟨bs, hbs⟩ := mapM_ok_of_all _ _ hpieces
  refine ⟨String.join bs, ?_⟩
  unfold OnUnimplementedFormatString.format
  rw [hbs]

/-- Witness for C6: the validated template `TPL` (which uses all three
placeholder kinds) renders totally against a trait reference instantiating
`Self` with `i32` and `T` with `u8`. -/
theorem c6_format_total_after_validation_witness :
    ∃ s, (OnUnimplementedFormatString.mk "TPL").format c6Tcx ⟨0, ["i32", "u8"]⟩
      = .ok s :=
  c6_format_total_after_validation c6Tcx ⟨0, ["i32", "u8"]⟩ 0 "TPL" 0
    ⟨"TPL"⟩ rfl rfl (by decide)

/-! ## The resolver walk (C1) -/

theorem evaluateGo_append (tcx : TyCtxt) (trait_ref : TraitRef)
    (options : List (String × Option String))
    (xs ys : List OnUnimplementedDirective)
    (m l : Option OnUnimplementedFormatString) :
    evaluateGo tcx trait_ref options (xs ++ ys) m l =
      match evaluateGo tcx trait_ref options xs m l with
      | .error f => .error f
      | .ok (m2, l2) => evaluateGo tcx trait_ref options ys m2 l2 := by
  induction xs generalizing m l with
  | nil => simp [evaluateGo]
  | cons c rest ih =>
    simp only [List.cons_append, evaluateGo]
    rcases hc : condHolds tcx trait_ref options c with f | b
    · rfl
    · cases b
      · simp [ih]
      · simp [ih]

theorem evaluateGo_reverse_eq_forward (tcx : TyCtxt) (trait_ref : TraitRef)
    (options : List (String × Option String))
    (cands : List OnUnimplementedDirective)
    (m l : Option OnUnimplementedFormatString)
    (h : ∀ c ∈ cands, (condHolds tcx trait_ref options c).isOk = true) :
    evaluateGo tcx trait_ref options cands.reverse m l =
      .ok ((forwardSlot tcx trait_ref options OnUnimplementedDirective.message cands).or m,
           (forwardSlot tcx trait_ref options OnUnimplementedDirective.label cands).or l) := by
  revert h
  induction cands generalizing m l with
  | nil =>
    intro h
    simp [evaluateGo, forwardSlot]
  | cons c rest ih =>
    intro h
    have hc := h c (List.mem_cons_self c rest)
    have hrest : ∀ x ∈ rest, (condHolds tcx trait_ref options x).isOk = true :=
      fun x hx => h x (List.mem_cons_of_mem c hx)
    simp only [List.reverse_cons]
    rw [evaluateGo_append, ih m l hrest]
    rcases hcond : condHolds tcx trait_ref options c with f | b
    · rw [hcond] at hc
      exact Bool.noConfusion hc
    · cases b
      · simp [evaluateGo, forwardSlot, hcond]
      · rcases hm : c.message with _ | mm <;> rcases hl : c.label with _ | ll <;>
          simp [evaluateGo, forwardSlot, hcond, hm, hl, Option.or]

/-- C1: for every directive tree whose conditions all evaluate without
panicking, `evaluate` returns as message the rendered message of the first
candidate in forward order (subcommands in declaration order, then the root)
whose condition evaluates true and which carries a message, and
independently returns as label the first such candidate's label
(`renderNote` is the renderer applied to the two winning templates). -/
theorem c1_evaluate_first_forward_wins (self : OnUnimplementedDirective)
    (tcx : TyCtxt) (trait_ref : TraitRef)
    (options : List (String × Option String))
    (h : ∀ c ∈ self.subcommands ++ [self],
        (condHolds tcx trait_ref options c).isOk = true) :
    self.evaluate tcx trait_ref options =
      renderNote tcx trait_ref
        (forwardSlot tcx trait_ref options OnUnimplementedDirective.message
          (self.subcommands ++ [self]))
        (forwardSlot tcx trait_ref options OnUnimplementedDirective.label
          (self.subcommands ++ [self])) := by
  unfold OnUnimplementedDirective.evaluate
  rw [evaluateGo_reverse_eq_forward tcx trait_ref options _ none none h]
  simp [Option.or_none]

/-- Witness for C1 at the claim's own scenario: subcommands
`[A (condition flag1, message m1), B (condition flag2, message m2)]` with
root message `m0`. With options making `flag1` true, the theorem applies and
the result message is `m1` rendered (regardless of `flag2`); with no option
set, both conditions are false and the result is `m0` rendered. -/
theorem c1_evaluate_first_forward_wins_witness :
    (∀ c ∈ c1Root.subcommands ++ [c1Root],
        (condHolds sampleTcx ⟨0, []⟩ [("flag1", (none : Option String))] c).isOk = true)
    ∧ c1Root.evaluate sampleTcx ⟨0, []⟩ [("flag1", none)] =
        renderNote sampleTcx ⟨0, []⟩
          (forwardSlot sampleTcx ⟨0, []⟩ [("flag1", none)]
            OnUnimplementedDirective.message (c1Root.subcommands ++ [c1Root]))
          (forwardSlot sampleTcx ⟨0, []⟩ [("flag1", none)]
            OnUnimplementedDirective.label (c1Root.subcommands ++ [c1Root]))
    ∧ c1Root.evaluate sampleTcx ⟨0, []⟩ [("flag1", none)]
        = .ok ⟨some "m1", none⟩
    ∧ c1Root.evaluate sampleTcx ⟨0, []⟩ []
        = .ok ⟨some "m0", none⟩ :=
  ⟨by decide,
   c1_evaluate_first_forward_wins c1Root sampleTcx ⟨0, []⟩ [("flag1", none)] (by decide),
   by decide, by decide⟩

/-! ## The matches clause at evaluation time (C5) -/

/-- C5: a well-formed `matches("TraitX", Self = "TypeY")` clause evaluated
during directive resolution (that is, by the condition walker with the
leaf tester and handler `evaluate` installs) has exactly the truth value the
trait-satisfiability oracle gives for the resolved trait bound and the type
of the resolved self definition. -/
theorem c5_matches_clause_equals_oracle (tcx : TyCtxt) (trait_ref : TraitRef)
    (options : List (String × Option String))
    (nested : List NestedMetaItem) (sp : Span)
    (bname sname : Name) (bid sid : DefId) (res : List (Name × DefId))
    (h1 : names_from_matches_clause nested = .ok (bname, sname))
    (h2 : tcx.matches_resolutions trait_ref.def_id = some res)
    (h3 : (res.find? (fun r => r.1 == bname)).map (fun (r : Name × DefId) => r.2)
        = some bid)
    (h4 : (res.find? (fun r => r.1 == sname)).map (fun (r : Name × DefId) => r.2)
        = some sid) :
    eval_condition (evaluateLeaf options) (evaluateHandler tcx trait_ref)
        (.list "matches" nested sp)
      = .ok (tcx.evaluate_obligation bid (tcx.type_of sid)) := by
  have hh : evaluateHandler tcx trait_ref (.list "matches" nested sp) nested
      = .ok (some (tcx.evaluate_obligation bid (tcx.type_of sid))) := by
    unfold evaluateHandler
    simp only [NestedMetaItem.metaName, bne_self_eq_false, Bool.false_eq_true,
      if_false, ite_false]
    simp only [h1, h2, h3, h4]
  simp [eval_condition, hh]

/-- Witness for C5: the clause `matches("Bar", Self = "T")` against the
sample environment, where `Bar` resolves to definition `10`, `T` to
definition `20` whose type prints as `MyType`, and the oracle answers true
for that pair. -/
theorem c5_matches_clause_equals_oracle_witness :
    eval_condition (evaluateLeaf []) (evaluateHandler sampleTcx ⟨0, []⟩)
        (.list "matches" [.litItem ⟨.str "Bar"⟩ 0, .nameValue "Self" ⟨.str "T"⟩ 0] 0)
      = .ok (sampleTcx.evaluate_obligation 10 (sampleTcx.type_of 20)) :=
  c5_matches_clause_equals_oracle sampleTcx ⟨0, []⟩ []
    [.litItem ⟨.str "Bar"⟩ 0, .nameValue "Self" ⟨.str "T"⟩ 0] 0
    "Bar" "T" 10 20 [("Bar", 10), ("T", 20)]
    (by decide) (by decide) (by decide) (by decide)

/-! ## Silently skipped matches arguments (C10) -/

theorem names_go_skip (a : NestedMetaItem) (h : silentlySkipped a = true) :
    ∀ (xs ys : List NestedMetaItem) (bn sn : Option Name),
      names_from_matches_go (xs ++ a :: ys) bn sn
        = names_from_matches_go (xs ++ ys) bn sn := by
  intro xs
  induction xs with
  | nil =>
    intro ys bn sn
    cases a with
    | word n sp =>
      simp [names_from_matches_go, NestedMetaItem.literal,
        NestedMetaItem.name_value_literal]
    | list n its sp =>
      simp [names_from_matches_go, NestedMetaItem.literal,
        NestedMetaItem.name_value_literal]
    | nameValue k lit sp =>
      obtain ⟨node⟩ := lit
      cases node with
      | str s2 =>
        simp only [silentlySkipped, bne_iff_ne, ne_eq] at h
        simp [names_from_matches_go, NestedMetaItem.literal,
          NestedMetaItem.name_value_literal, h]
      | other =>
        by_cases hk : k = "Self"
        · simp [names_from_matches_go, NestedMetaItem.literal,
            NestedMetaItem.name_value_literal, hk]
        · simp [names_from_matches_go, NestedMetaItem.literal,
            NestedMetaItem.name_value_literal, hk]
    | litItem lit sp =>
      obtain ⟨node⟩ := lit
      cases node with
      | str s2 => simp [silentlySkipped] at h
      | other =>
        simp [names_from_matches_go, NestedMetaItem.literal]
  | cons x rest ih =>
    intro ys bn sn
    simp only [List.cons_append, names_from_matches_go]
    cases hx : x.literal with
    | some lit =>
      cases hn : lit.node with
      | str nm =>
        by_cases hb : bn.isSome
        · simp [hx, hn, hb]
        · simp [hx, hn, hb, ih]
      | other => simp [hx, hn, ih]
    | none =>
      cases hnv : x.name_value_literal with
      | some kv =>
        obtain ⟨k, lit⟩ := kv
        by_cases hk : k = "Self"
        · cases hn : lit.node with
          | str nm =>
            by_cases hs : sn.isSome
            · simp [hx, hnv, hk, hn, hs]
            · simp [hx, hnv, hk, hn, hs, ih]
          | other => simp [hx, hnv, hk, hn, ih]
        · simp [hx, hnv, hk, ih]
      | none => simp [hx, hnv, ih]

/-- C10: inserting an argument that is neither a bare string literal nor a
`Self = "<string>"` pair anywhere into a `matches(...)` nested argument list
never changes what `names_from_matches_clause` extracts — the same bound
name, self name, or error is produced. -/
theorem c10_skipped_argument_insertion_invariant
    (xs ys : List NestedMetaItem) (a : NestedMetaItem)
    (h : silentlySkipped a = true) :
    names_from_matches_clause (xs ++ a :: ys)
      = names_from_matches_clause (xs ++ ys) := by
  unfold names_from_matches_clause
  rw [names_go_skip a h xs ys none none]

/-- Witness for C10: inserting a `bound = "X"` pair (key is not `Self`) into
the middle of a well-formed clause leaves the extraction unchanged. -/
theorem c10_skipped_argument_insertion_invariant_witness :
    names_from_matches_clause
        [.litItem ⟨.str "Bar"⟩ 0, .nameValue "bound" ⟨.str "X"⟩ 9,
         .nameValue "Self" ⟨.str "T"⟩ 0]
      = names_from_matches_clause
        [.litItem ⟨.str "Bar"⟩ 0, .nameValue "Self" ⟨.str "T"⟩ 0] :=
  c10_skipped_argument_insertion_invariant
    [.litItem ⟨.str "Bar"⟩ 0] [.nameValue "Self" ⟨.str "T"⟩ 0]
    (.nameValue "bound" ⟨.str "X"⟩ 9) (by decide)

/-! ## Parser lemmas (C3, C8) -/

theorem parseItems_all_unrecognized (tcx : TyCtxt) (trait_def_id : DefId)
    (span : Span) (condition : Option NestedMetaItem) (is_root : Bool) :
    ∀ (items : List NestedMetaItem)
      (message label : Option OnUnimplementedFormatString)
      (subcommands : List OnUnimplementedDirective) (errored : Bool)
      (diags : List Diag),
      (∀ i ∈ items, i.check_name "message" = false ∧ i.check_name "label" = false ∧
        i.check_name "on" = false) →
      OnUnimplementedDirective.parseItems tcx trait_def_id span condition is_root
          items message label subcommands errored diags
        = (diags ++ items.map
            (fun i => ⟨i.span, "this attribute must have a valid value"⟩),
           if errored then .error .reported
           else .ok (.mk condition subcommands message label)) := by
  intro items
  induction items with
  | nil =>
    intro m l sc er dg _h
    simp [OnUnimplementedDirective.parseItems]
  | cons item rest ih =>
    intro m l sc er dg h
    obtain ⟨h1, h2, h3⟩ := h item (List.mem_cons_self item rest)
    have hrest := fun i hi => h i (List.mem_cons_of_mem item hi)
    simp only [OnUnimplementedDirective.parseItems, h1, h2, h3, Bool.false_and,
      Bool.and_self, if_false, Bool.false_eq_true, ite_false]
    rw [ih m l sc er (dg ++ [Diag.mk item.span "this attribute must have a valid value"]) hrest]
    simp

theorem parseItems_nonroot_inv (tcx : TyCtxt) (trait_def_id : DefId)
    (span : Span) (condition : Option NestedMetaItem) :
    ∀ (items : List NestedMetaItem)
      (message label : Option OnUnimplementedFormatString)
      (subcommands : List OnUnimplementedDirective) (errored : Bool)
      (diags ds : List Diag) (dir : OnUnimplementedDirective),
      OnUnimplementedDirective.parseItems tcx trait_def_id span condition false
          items message label subcommands errored diags = (ds, .ok dir) →
      dir.condition = condition ∧ dir.subcommands = subcommands := by
  intro items
  induction items with
  | nil =>
    intro m l sc er dg ds dir h
    simp only [OnUnimplementedDirective.parseItems] at h
    cases er with
    | true => simp at h
    | false =>
      simp at h
      rw [← h.2]
      exact ⟨rfl, rfl⟩
  | cons item rest ih =>
    intro m l sc er dg ds dir h
    simp only [OnUnimplementedDirective.parseItems] at h
    split at h
    · -- message branch
      split at h
      · split at h
        · exact ih _ _ _ _ _ _ _ h
        · simp at h
      · exact ih _ _ _ _ _ _ _ h
    · split at h
      · -- label branch
        split at h
        · split at h
          · exact ih _ _ _ _ _ _ _ h
          · simp at h
        · exact ih _ _ _ _ _ _ _ h
      · split at h
        · -- on branch impossible: is_root is false
          rename_i hcond
          simp at hcond
        · exact ih _ _ _ _ _ _ _ h

theorem parse_nonroot_inv (tcx : TyCtxt) (trait_def_id : DefId)
    (items : List NestedMetaItem) (span : Span) (ds : List Diag)
    (dir : OnUnimplementedDirective)
    (h : OnUnimplementedDirective.parse tcx trait_def_id items span false
        = (ds, .ok dir)) :
    (∃ c, dir.condition = some c) ∧ dir.subcommands = [] := by
  rw [OnUnimplementedDirective.parse.eq_def] at h
  simp only [Bool.false_eq_true, if_false, ite_false] at h
  cases items with
  | nil => simp at h
  | cons first rest =>
    simp only at h
    cases hm : first.meta_item with
    | none =>
      simp only [hm] at h
      simp at h
    | some cond =>
      simp only [hm] at h
      cases he : eval_condition (fun _ => true) parseMatchesHandler cond with
      | error f =>
        simp only [he] at h
        simp at h
      | ok b =>
        simp only [he] at h
        have hinv := parseItems_nonroot_inv tcx trait_def_id span (some cond)
          rest none none [] false [] ds dir h
        exact ⟨⟨cond, hinv.1⟩, hinv.2⟩

theorem parseItems_root_inv (tcx : TyCtxt) (trait_def_id : DefId) (span : Span) :
    ∀ (items : List NestedMetaItem)
      (message label : Option OnUnimplementedFormatString)
      (subcommands : List OnUnimplementedDirective) (errored : Bool)
      (diags ds : List Diag) (dir : OnUnimplementedDirective),
      (∀ s ∈ subcommands, (∃ c, s.condition = some c) ∧ s.subcommands = []) →
      OnUnimplementedDirective.parseItems tcx trait_def_id span none true
          items message label subcommands errored diags = (ds, .ok dir) →
      dir.condition = none ∧
        ∀ s ∈ dir.subcommands, (∃ c, s.condition = some c) ∧ s.subcommands = [] := by
  intro items
  induction items with
  | nil =>
    intro m l sc er dg ds dir hsc h
    simp only [OnUnimplementedDirective.parseItems] at h
    cases er with
    | true => simp at h
    | false =>
      simp at h
      rw [← h.2]
      exact ⟨rfl, hsc⟩
  | cons item rest ih =>
    intro m l sc er dg ds dir hsc h
    simp only [OnUnimplementedDirective.parseItems] at h
    split at h
    · split at h
      · split at h
        · exact ih _ _ _ _ _ _ _ hsc h
        · simp at h
      · exact ih _ _ _ _ _ _ _ hsc h
    · split at h
      · split at h
        · split at h
          · exact ih _ _ _ _ _ _ _ hsc h
          · simp at h
        · exact ih _ _ _ _ _ _ _ hsc h
      · split at h
        · -- on branch
          split at h
          · -- meta_item_list = some list_items
            split at h
            · -- sub parse succeeded
              rename_i ds2 subcommand hsub
              have hsubinv := parse_nonroot_inv tcx trait_def_id _ _ _ _ hsub
              refine ih _ _ _ _ _ _ _ ?_ h
              intro s hs
              rcases List.mem_append.mp hs with hs2 | hs2
              · exact hsc s hs2
              · rw [List.mem_singleton.mp hs2]
                exact hsubinv
            · -- sub parse reported an error
              exact ih _ _ _ _ _ _ _ hsc h
            · -- sub parse panicked
              simp at h
          · exact ih _ _ _ _ _ _ _ hsc h
        · exact ih _ _ _ _ _ _ _ hsc h

/-- C8: every directive returned successfully by `parse` satisfies the
structural invariant — its condition is `none` exactly when it was parsed as
root, a non-root directive has an empty subcommands sequence, and every
subcommand of a root directive carries a condition and no subcommands of its
own. -/
theorem c8_parse_structural_invariant (tcx : TyCtxt) (trait_def_id : DefId)
    (items : List NestedMetaItem) (span : Span) (is_root : Bool)
    (ds : List Diag) (dir : OnUnimplementedDirective)
    (h : OnUnimplementedDirective.parse tcx trait_def_id items span is_root
        = (ds, .ok dir)) :
    (dir.condition = none ↔ is_root = true) ∧
    (is_root = false → dir.subcommands = []) ∧
    (∀ s ∈ dir.subcommands, s.condition ≠ none ∧ s.subcommands = []) := by
  cases is_root with
  | false =>
    obtain ⟨⟨c, hc⟩, hs⟩ := parse_nonroot_inv tcx trait_def_id items span ds dir h
    refine ⟨?_, fun _ => hs, ?_⟩
    · constructor
      · intro h0
        rw [h0] at hc
        cases hc
      · intro h0
        cases h0
    · rw [hs]
      intro s hs2
      cases hs2
  | true =>
    rw [OnUnimplementedDirective.parse.eq_def] at h
    simp only [if_true, ite_true] at h
    obtain ⟨hc, hsub⟩ := parseItems_root_inv tcx trait_def_id span items
      none none [] false [] ds dir (by intro s hs; cases hs) h
    refine ⟨?_, ?_, ?_⟩
    · simp [hc]
    · intro hx
      exact absurd hx (by simp)
    · intro s hs
      obtain ⟨⟨c, hcs⟩, hss⟩ := hsub s hs
      refine ⟨?_, hss⟩
      rw [hcs]
      simp

/-- Witness for C8: a concrete root parse of `[on(flagY)]` succeeds with one
subcommand, and the returned directive satisfies the structural invariant. -/
theorem c8_parse_structural_invariant_witness :
    OnUnimplementedDirective.parse sampleTcx 0 [.list "on" [.word "flagY" 1] 2] 0 true
        = ([], .ok c8Dir)
    ∧ ((c8Dir.condition = none ↔ true = true)
        ∧ (true = false → c8Dir.subcommands = [])
        ∧ ∀ s ∈ c8Dir.subcommands, s.condition ≠ none ∧ s.subcommands = []) := by
  have hparse : OnUnimplementedDirective.parse sampleTcx 0
      [.list "on" [.word "flagY" 1] 2] 0 true = ([], .ok c8Dir) := by
    simp [OnUnimplementedDirective.parse, OnUnimplementedDirective.parseItems,
      NestedMetaItem.check_name, NestedMetaItem.meta_item,
      NestedMetaItem.meta_item_list, NestedMetaItem.span, NestedMetaItem.value_str,
      eval_condition, parseMatchesHandler, NestedMetaItem.metaName, c8Dir]
  exact ⟨hparse,
    c8_parse_structural_invariant sampleTcx 0 [.list "on" [.word "flagY" 1] 2]
      0 true [] c8Dir hparse⟩

/-! ## Batched parse errors (C3) -/

/-- C3 counterexample: a root item list with one unrecognized item. The
parser emits the diagnostic at that item's span but the call itself returns
the successfully built (empty) directive, not a failure — refuting the
claim's "and then the whole parse call returns failure". -/
theorem c3_counterexample_unrecognized_item_parse_returns_ok :
    OnUnimplementedDirective.parse sampleTcx 0 [.word "garbage" 7] 0 true
      = ([⟨7, "this attribute must have a valid value"⟩],
         .ok (.mk none [] none none)) := by
  simp [OnUnimplementedDirective.parse, OnUnimplementedDirective.parseItems,
    NestedMetaItem.check_name, NestedMetaItem.span]

/-- C3 (amended): for a root item list all of whose items match none of the
recognized shapes, `parse` reports one error at each item's span, scanning
every item in the same pass (batched error reporting), but the call then
returns the built directive successfully — the emitted diagnostics fail the
compilation session, not this call (the call itself fails only when a
subcommand's recursive parse or a template validation failed). -/
theorem c3_amended_errors_batched_but_parse_succeeds (tcx : TyCtxt)
    (trait_def_id : DefId) (span : Span) (items : List NestedMetaItem)
    (h : ∀ i ∈ items, i.check_name "message" = false ∧
        i.check_name "label" = false ∧ i.check_name "on" = false) :
    OnUnimplementedDirective.parse tcx trait_def_id items span true
      = (items.map (fun i => ⟨i.span, "this attribute must have a valid value"⟩),
         .ok (.mk none [] none none)) := by
  rw [OnUnimplementedDirective.parse.eq_def]
  simp only [if_true, ite_true]
  rw [parseItems_all_unrecognized tcx trait_def_id span none true items
    none none [] false [] h]
  simp

/-- Witness for C3 (amended): two unrecognized items produce two diagnostics
at their respective spans, and the parse still returns a directive. -/
theorem c3_amended_errors_batched_witness :
    OnUnimplementedDirective.parse sampleTcx 0
        [.word "alpha" 3, .word "beta" 4] 0 true
      = ([⟨3, "this attribute must have a valid value"⟩,
          ⟨4, "this attribute must have a valid value"⟩],
         .ok (.mk none [] none none)) :=
  c3_amended_errors_batched_but_parse_succeeds sampleTcx 0 0
    [.word "alpha" 3, .word "beta" 4] (by decide)

/-! ## Malformed matches clauses at parse time (C4) -/

/-- C4 counterexample: a malformed `matches` clause (two bound literals)
hidden behind `any(flagX, ...)` passes directive parsing untouched — the
parse-time walk treats every simple leaf as true, so the short-circuiting
disjunction never visits the clause — and then reaches condition evaluation,
where the malformedness panics. This refutes the claim that every malformed
clause is rejected during parsing and never reaches evaluation. -/
theorem c4_counterexample_skipped_clause_reaches_evaluation :
    OnUnimplementedDirective.parse sampleTcx 0 [c4Cond] 5 false = ([], .ok c4Dir)
    ∧ c4Root.evaluate sampleTcx ⟨0, []⟩ []
        = .error (.panicked
            "Multiple string literals provided to rustc_on_unimplemented matches clause") := by
  constructor
  · simp [OnUnimplementedDirective.parse, OnUnimplementedDirective.parseItems,
      NestedMetaItem.meta_item, eval_condition, eval_condition_any,
      parseMatchesHandler, NestedMetaItem.metaName, c4Cond, c4BadMatches, c4Dir]
  · decide

/-- C4 (amended): a `matches(...)` clause whose nested argument list is
malformed is rejected during directive parsing — by the eager
`names_from_matches_clause(..).unwrap()` panic — whenever the parse-time
condition walk visits the clause, in particular whenever the clause itself is
the `on(...)` condition; a clause skipped by the short-circuiting walk (for
example behind an already-true disjunct) is not checked at parse time and
does reach condition evaluation, where the same check panics. -/
theorem c4_amended_visited_matches_clause_rejected_at_parse (tcx : TyCtxt)
    (trait_def_id : DefId) (nested : List NestedMetaItem) (sp : Span)
    (rest : List NestedMetaItem) (span : Span) (e : String)
    (h : names_from_matches_clause nested = .error e) :
    OnUnimplementedDirective.parse tcx trait_def_id
        (.list "matches" nested sp :: rest) span false
      = ([], .error (.panicked e)) := by
  rw [OnUnimplementedDirective.parse.eq_def]
  simp only [Bool.false_eq_true, if_false, ite_false]
  have hh : parseMatchesHandler (.list "matches" nested sp) nested
      = .error (.panicked e) := by
    unfold parseMatchesHandler
    simp [NestedMetaItem.metaName, h]
  simp [NestedMetaItem.meta_item, eval_condition, hh]

/-- Witness for C4 (amended): a clause with two bound literals standing
directly as the `on(...)` condition panics the parse. -/
theorem c4_amended_visited_matches_clause_witness :
    OnUnimplementedDirective.parse sampleTcx 0 [c4BadMatches] 5 false
      = ([], .error (.panicked
          "Multiple string literals provided to rustc_on_unimplemented matches clause")) :=
  c4_amended_visited_matches_clause_rejected_at_parse sampleTcx 0
    [.litItem ⟨.str "A"⟩ 0, .litItem ⟨.str "B"⟩ 0] 0 [] 5
    "Multiple string literals provided to rustc_on_unimplemented matches clause"
    (by decide)

/-! ## Bare-string attributes (C9) -/

/-- C9: when the recognized attribute on the implementing item carries a bare
string value (no nested list), `of_item` builds a directive with no
condition, no subcommands, no message, and that string as the label (after
template validation); evaluating that directive yields the rendered label
and no message regardless of the trait reference and options passed. -/
theorem c9_bare_string_attribute_label_only (tcx : TyCtxt)
    (trait_def_id impl_def_id : DefId) (a : NestedMetaItem) (v : Name)
    (ds : List Diag) (fs : OnUnimplementedFormatString)
    (hfind : (tcx.get_attrs impl_def_id).find?
        (fun x => x.check_name "rustc_on_unimplemented") = some a)
    (hnolist : a.meta_item_list = none)
    (hval : a.value_str = some v)
    (htp : OnUnimplementedFormatString.try_parse tcx trait_def_id v a.span
        = (ds, .ok fs)) :
    OnUnimplementedDirective.of_item tcx trait_def_id impl_def_id
        = (ds, .ok (some (.mk none [] none (some fs))))
    ∧ ∀ (trait_ref : TraitRef) (options : List (String × Option String)),
        (OnUnimplementedDirective.mk none [] none (some fs)).evaluate
            tcx trait_ref options
          = match fs.format tcx trait_ref with
            | .error f => .error f
            | .ok s => .ok ⟨none, some s⟩ := by
  constructor
  · unfold OnUnimplementedDirective.of_item
    simp only [hfind, hnolist, hval, htp]
  · intro trait_ref options
    unfold OnUnimplementedDirective.evaluate
    simp only [OnUnimplementedDirective.subcommands, List.nil_append,
      List.reverse_cons, List.reverse_nil]
    simp only [evaluateGo, condHolds, OnUnimplementedDirective.condition,
      OnUnimplementedDirective.message, OnUnimplementedDirective.label]
    unfold renderNote
    cases hf : fs.format tcx trait_ref with
    | error f => simp [hf]
    | ok s => simp [hf]

/-- Witness for C9: the attribute value `no way` on the sample item yields a
directive with only the label set, whose evaluation produces the label
`no way` and no message. -/
theorem c9_bare_string_attribute_label_only_witness :
    OnUnimplementedDirective.of_item sampleTcx 0 1
        = ([], .ok (some (.mk none [] none (some ⟨"no way"⟩))))
    ∧ (OnUnimplementedDirective.mk none [] none
          (some ⟨"no way"⟩)).evaluate sampleTcx ⟨0, ["i32"]⟩ []
        = .ok ⟨none, some "no way"⟩ := by
  have hmain := c9_bare_string_attribute_label_only sampleTcx 0 1
    (.nameValue "rustc_on_unimplemented" ⟨.str "no way"⟩ 3) "no way" []
    ⟨"no way"⟩ rfl rfl rfl rfl
  refine ⟨hmain.1, ?_⟩
  rw [hmain.2 ⟨0, ["i32"]⟩ []]
  decide

end OnUnimpl
